import Mathlib

/-!
Verification of drdump (src/main.rs): extraction of kernel drop-reason
enumerations from BTF metadata, merging of the core table with extension
tables, and formatting of the results.

A Rust `BTreeMap<u32, String>` is modelled as an association list of
`Nat × String` entries kept sorted strictly ascending by key; iterating a
`BTreeMap` yields entries in ascending key order, which is exactly the list
order of the model. Machine integers are modelled as `Nat`/`Int` with an
explicit reduction modulo 2^32 where the code casts (`as u32`). Fallible
operations return `Except String`.
-/

/-- Model of `BTreeMap<u32, String>`: entries sorted strictly ascending by
key. Sortedness is tracked by the `SortedTbl` predicate, not by a subtype. -/
abbrev Tbl := List (Nat × String)

/-- The sortedness invariant of a `BTreeMap` model: keys strictly ascend. -/
def SortedTbl (m : Tbl) : Prop := List.Pairwise (fun p q => p.1 < q.1) m

/-- Model of `BTreeMap::get`: first (for a sorted table: only) binding of a key. -/
def lookupTbl (k : Nat) : Tbl → Option String
  | [] => none
  | (a, b) :: rest => if k = a then some b else lookupTbl k rest

/-- Model of `BTreeMap::insert`: overwrites an existing binding, keeps keys sorted. -/
def insertSorted (k : Nat) (v : String) : Tbl → Tbl
  | [] => [(k, v)]
  | (a, b) :: rest =>
    if k < a then (k, v) :: (a, b) :: rest
    else if k = a then (k, v) :: rest
    else (a, b) :: insertSorted k v rest

/-- Model of `BTreeMap::remove`: drop the binding of a key, if present. -/
def eraseKey (k : Nat) : Tbl → Tbl
  | [] => []
  | (a, b) :: rest => if a = k then rest else (a, b) :: eraseKey k rest

/-- Model of `reasons.entry(val).or_insert(reason)` from main.rs: insert only
when the key is absent (first-writer-wins). -/
def orInsert (k : Nat) (v : String) (m : Tbl) : Tbl :=
  match lookupTbl k m with
  | some _ => m
  | none => insertSorted k v m

/-- Constant `SKB_DROP_REASON_SUBSYS_NUM` from main.rs. -/
def SKB_DROP_REASON_SUBSYS_NUM : Nat := 5

/-- Constant `NON_CORE_DROP_REASONS` from main.rs: the fixed, ordered list of
known extension drop-reason enumerations. -/
def NON_CORE_DROP_REASONS : List String :=
  ["mac80211_drop_reason", "ovs_drop_reason"]

/-- An enum member as seen through btf-rs: its declared integer value
(sign-extended into `Int`) and the result of `btf.resolve_name(member)`,
which can fail. -/
structure EnumMember where
  val : Int
  name : Except String String

/-- A type definition returned by `resolve_types_by_name`: either an
enumeration with its members, or some other kind of type. -/
inductive Ty where
  | enumTy (members : List EnumMember)
  | other

/-- The predicate of `matches!(t, Type::Enum(_))` in parse_enum. -/
def isEnum : Ty → Bool
  | .enumTy _ => true
  | .other => false

/-- Abstract `BtfCollection`: the one capability parse_enum uses,
`resolve_types_by_name`, which can fail (I/O or lookup failure). -/
structure BtfCollection where
  resolveTypesByName : String → Except String (List Ty)

/-- Model of `member.val() as u32`: the declared (possibly negative,
sign-extended) value reinterpreted as an unsigned 32-bit integer. -/
def toU32 (v : Int) : Nat := (v % 4294967296).toNat

/-- The member loop of parse_enum: for each member in declaration order,
insert `(val as u32, resolve_name(member)?)`; a name-resolution failure
aborts the whole extraction. -/
def insertMembers : List EnumMember → Tbl → Except String Tbl
  | [], acc => .ok acc
  | m :: rest, acc =>
    match m.name with
    | .error e => .error e
    | .ok nm => insertMembers rest (insertSorted (toU32 m.val) nm acc)

/-- Function `parse_enum` from main.rs: resolve the name (a resolution failure yields
`none`, not an error), pick the first enumeration-kind definition, and fold
its members into a fresh map. -/
def parse_enum (btf : BtfCollection) (name : String) :
    Except String (Option Tbl) :=
  match btf.resolveTypesByName name with
  | .error _ => .ok none
  | .ok types =>
    match types.find? isEnum with
    | some (Ty.enumTy members) =>
      match insertMembers members [] with
      | .error e => .error e
      | .ok t => .ok (some t)
    | _ => .ok none

/-- The `while let Some((val, reason)) = subsys_reasons.pop_first()` loop of
main: drain the extension table in ascending key order (for the sorted model,
`pop_first` yields the head) and `or_insert` each entry into the running
table. -/
def mergeExt : Tbl → Tbl → Tbl
  | [], reasons => reasons
  | p :: rest, reasons => mergeExt rest (orInsert p.1 p.2 reasons)

/-- The `for r#enum in NON_CORE_DROP_REASONS` loop of main: extract each
extension enumeration (errors propagate, absence is skipped) and merge it. -/
def mergeNonCore (btf : BtfCollection) : List String → Tbl → Except String Tbl
  | [], reasons => .ok reasons
  | n :: rest, reasons =>
    match parse_enum btf n with
    | .error e => .error e
    | .ok none => mergeNonCore btf rest reasons
    | .ok (some t) => mergeNonCore btf rest (mergeExt t reasons)

/-- Table construction in main: parse the core enumeration (absence is the
fatal "not supported" case), remove the sentinel mask code, merge the
extension enumerations in their fixed order, and parse the subsystem
enumeration. -/
def buildReasons (btf : BtfCollection) :
    Except String (Tbl × Option Tbl) :=
  match parse_enum btf "skb_drop_reason" with
  | .error e => .error e
  | .ok none => .error "Drop reasons are not supported by this kernel"
  | .ok (some core) =>
    match mergeNonCore btf NON_CORE_DROP_REASONS (eraseKey 0xffff0000 core) with
    | .error e => .error e
    | .ok reasons =>
      match parse_enum btf "skb_drop_reason_subsys" with
      | .error e => .error e
      | .ok subsys => .ok (reasons, subsys)

/-- The inner closure `format` of format_reason: when annotation is requested
and a subsystem table exists, look up `val >> 16` and append the subsystem
name when found; otherwise return the base string unchanged. -/
def annotateSub (subsys : Option Tbl) (val : Nat) (s : String)
    (verbose : Bool) : String :=
  if verbose && subsys.isSome then
    match subsys with
    | some sub =>
      match lookupTbl (val >>> 16) sub with
      | some nm => s ++ " (sub-system: " ++ nm ++ ")"
      | none => s
    | none => s
  else s

/-- Function `format_reason` from main.rs. A known code renders its stored name with
the caller's verbose flag; an unknown code renders "Unknown reason N" with
annotation forced on. -/
def format_reason (val : Nat) (reasons : Tbl) (subsys : Option Tbl)
    (verbose : Bool) : String :=
  match lookupTbl val reasons with
  | some nm => annotateSub subsys val nm verbose
  | none => annotateSub subsys val ("Unknown reason " ++ toString val) true

/-- Model of `reasons.keys().max().unwrap_or(&0)`. -/
def maxKey (reasons : Tbl) : Nat := (reasons.map Prod.fst).foldl max 0

/-- The field width of the raw listing:
`max.checked_ilog10().unwrap_or(0) + 1`. `Nat.log 10` is 0 at 0, matching
`unwrap_or(0)`, and equals `checked_ilog10` elsewhere. -/
def rawWidth (reasons : Tbl) : Nat := Nat.log 10 (maxKey reasons) + 1

/-- Rust's `{i:width$}` for integers: right-aligned, padded with spaces. -/
def padLeft (w : Nat) (s : String) : String :=
  String.mk (List.replicate (w - s.length) ' ') ++ s

/-- The "raw" output branch of main: one line per key, in table (ascending
key) order, `"{i:width$} = {format_reason(i, ...)}"`. -/
def render_raw (reasons : Tbl) (subsys : Option Tbl) (verbose : Bool) :
    List String :=
  reasons.map fun p =>
    padLeft (rawWidth reasons) (toString p.1) ++ " = " ++
      format_reason p.1 reasons subsys verbose

/-- One declaration line of the bpftrace script:
`    @drop_reasons[{val}] = "{name}";\n`. -/
def bpfLine (p : Nat × String) : String :=
  "    @drop_reasons[" ++ toString p.1 ++ "] = \"" ++ p.2 ++ "\";\n"

/-- The fold building the bpftrace declaration block. -/
def bpfDefs (reasons : Tbl) : String :=
  reasons.foldl (fun out p => out ++ bpfLine p) ""

/-- The fixed bpftrace template text before the declaration block. -/
def bpfHeader : String :=
  "#!/usr/bin/bpftrace\n\nBEGIN\n\x7b\n    printf(\"Tracing dropped skbs... Hit Ctrl-C to end.\\n\");\n\x7d\n\ntracepoint:skb:kfree_skb\n\x7b\n"

/-- The fixed bpftrace template text after the declaration block. -/
def bpfFooter : String :=
  "\n    @stack[ksym(args->location),@drop_reasons[args->reason]] = count();\n    clear(@drop_reasons);\n\x7d\n\ninterval:s:5\n\x7b\n    time(\"%F %T %z (%Z)\\n\");\n    print(@stack);\n    printf(\"\\n\");\n    clear(@stack);\n\x7d\n\nEND\n\x7b\n  clear(@stack);\n\x7d"

/-- Function `format_bpftrace` from main.rs: the declaration block spliced
into the fixed template. -/
def format_bpftrace (reasons : Tbl) : String :=
  bpfHeader ++ bpfDefs reasons ++ bpfFooter

/-- One declaration line of the stap script:
`    drop_reasons[{val}] = "{name}";\n`. -/
def stapLine (p : Nat × String) : String :=
  "    drop_reasons[" ++ toString p.1 ++ "] = \"" ++ p.2 ++ "\";\n"

/-- The fold building the stap declaration block. -/
def stapDefs (reasons : Tbl) : String :=
  reasons.foldl (fun out p => out ++ stapLine p) ""

/-- The fixed stap template text before the declaration block. -/
def stapHeader : String :=
  "#! /usr/bin/env stap\n\nglobal skb_drop_reason\nglobal drop_reasons\n\nprobe kernel.trace(\"kfree_skb\") \x7b\n    skb_drop_reason[$location, $reason] <<< 1;\n\x7d\n\nprobe begin \x7b\n    printf(\"Tracing dropped skbs... Hit Ctrl-C to end.\\n\");\n\x7d\n\n# Report every 5 seconds\nprobe timer.sec(5)\n\x7b\n    printf(\"\\n%s\", tz_ctime(gettimeofday_s()))\n"

/-- The fixed stap template text after the declaration block. -/
def stapFooter : String :=
  "\n    printf(\"\\n%-35s%-35s%10s\\n\",\"Drop\",\"Location\",\"Count\");\n    foreach([location, reason] in skb_drop_reason) \x7b\n        printf(\"%-35s%-35s%10d\\n\",symname(location),drop_reasons[reason],@count(skb_drop_reason[location, reason]))\n    \x7d\n    delete skb_drop_reason\n\x7d"

/-- Function `format_stap` from main.rs: the declaration block spliced into
the fixed template. -/
def format_stap (reasons : Tbl) : String :=
  stapHeader ++ stapDefs reasons ++ stapFooter

/-- Whether a member's name resolution succeeds. -/
def nameOk (m : EnumMember) : Bool :=
  match m.name with
  | .ok _ => true
  | .error _ => false

/-- The name the earliest extension (in the given scan order) that defines
code `k` gives to it: the first extension whose extracted table contains `k`
wins; extraction failures and absent extensions contribute nothing. -/
def firstExtDef (btf : BtfCollection) (k : Nat) : List String → Option String
  | [] => none
  | n :: rest =>
    match parse_enum btf n with
    | .ok (some t) =>
      match lookupTbl k t with
      | some nm => some nm
      | none => firstExtDef btf k rest
    | _ => firstExtDef btf k rest

/-- The name of the last member (in declaration order) of a member list whose
value reinterprets to key `k`, when that member's name resolves. -/
def lastDef (k : Nat) : List EnumMember → Option String
  | [] => none
  | m :: rest =>
    match lastDef k rest with
    | some nm => some nm
    | none =>
      match m.name with
      | .ok nm => if k = toU32 m.val then some nm else none
      | .error _ => none

/-- Modelled from the spec's words, for comparison in C7 only: the claimed
zero-padded raw listing ("the code zero-padded-aligned to a width equal to
the number of decimal digits of the maximum code"), padding with the
character '0' where the code pads with spaces. -/
def render_raw_zeroPad (reasons : Tbl) (subsys : Option Tbl)
    (verbose : Bool) : List String :=
  reasons.map fun p =>
    String.mk (List.replicate (rawWidth reasons - (toString p.1).length) '0') ++
      toString p.1 ++ " = " ++ format_reason p.1 reasons subsys verbose

/-- Modelled from the spec's words, for comparison in C8 only: the claimed
declaration-order member table ("iteration order following the enumeration's
declaration order in the source metadata"). -/
def declOrderTable (ms : List EnumMember) : Tbl :=
  ms.map fun m =>
    (toU32 m.val, match m.name with | .ok nm => nm | .error _ => "")

/-- A concrete BTF fixture: core defines codes 0, 2 and the sentinel mask;
the mac80211 extension defines 2 (colliding with core) and 3; the ovs
extension defines 3 (colliding with mac80211) and 4; one subsystem id. -/
def btfMain : BtfCollection :=
  ⟨fun name =>
    if name = "skb_drop_reason" then
      .ok [Ty.enumTy [⟨0, .ok "NOT_SPECIFIED"⟩, ⟨2, .ok "TCP_CSUM"⟩,
        ⟨0xffff0000, .ok "SUBSYS_MASK"⟩]]
    else if name = "mac80211_drop_reason" then
      .ok [Ty.enumTy [⟨2, .ok "MAC_FILTER"⟩, ⟨3, .ok "RADIO_DROP"⟩]]
    else if name = "ovs_drop_reason" then
      .ok [Ty.enumTy [⟨3, .ok "OVS_LATER"⟩, ⟨4, .ok "OVS_ONLY"⟩]]
    else if name = "skb_drop_reason_subsys" then
      .ok [Ty.enumTy [⟨2, .ok "wifi"⟩]]
    else .error "not found"⟩

/-- The core table btfMain's core enumeration extracts to. -/
def coreMain : Tbl :=
  [(0, "NOT_SPECIFIED"), (2, "TCP_CSUM"), (4294901760, "SUBSYS_MASK")]

/-- The merged drop-reason table built from btfMain. -/
def tblMain : Tbl :=
  [(0, "NOT_SPECIFIED"), (2, "TCP_CSUM"), (3, "RADIO_DROP"), (4, "OVS_ONLY")]

/-- The subsystem table built from btfMain. -/
def subMain : Tbl := [(2, "wifi")]

/-- A fixture whose core defines the sentinel mask and whose mac80211
extension also defines the sentinel code (with a different name). -/
def btfC2 : BtfCollection :=
  ⟨fun name =>
    if name = "skb_drop_reason" then
      .ok [Ty.enumTy [⟨0, .ok "NOT_SPECIFIED"⟩, ⟨0xffff0000, .ok "SUBSYS_MASK"⟩]]
    else if name = "mac80211_drop_reason" then
      .ok [Ty.enumTy [⟨0xffff0000, .ok "EXT_MASK"⟩]]
    else .error "not found"⟩

/-- A fixture where no type resolves at all (kernel without drop reasons). -/
def btfNoCore : BtfCollection := ⟨fun _ => .error "no such type"⟩

/-- A fixture whose core enumeration has a member whose name cannot be
resolved. -/
def btfErr : BtfCollection :=
  ⟨fun name =>
    if name = "skb_drop_reason" then
      .ok [Ty.enumTy [⟨0, .error "bad string offset"⟩]]
    else .error "not found"⟩

/-- A fixture with a single-member enumeration of declared value -2. -/
def btfNeg : BtfCollection :=
  ⟨fun name =>
    if name = "neg_enum" then .ok [Ty.enumTy [⟨-2, .ok "NEG"⟩]]
    else .error "not found"⟩

/-- A fixture whose enumeration declares members out of key order. -/
def btfC8 : BtfCollection :=
  ⟨fun name =>
    if name = "myenum" then
      .ok [Ty.enumTy [⟨10, .ok "B"⟩, ⟨5, .ok "A"⟩]]
    else .error "not found"⟩

/-- A fixture whose enumeration declares two members with the same value. -/
def btfDup : BtfCollection :=
  ⟨fun name =>
    if name = "dup_enum" then
      .ok [Ty.enumTy [⟨1, .ok "FIRST"⟩, ⟨1, .ok "SECOND"⟩]]
    else .error "not found"⟩

theorem lookupTbl_insertSorted (k a : Nat) (v : String) (m : Tbl) :
    lookupTbl k (insertSorted a v m) = if k = a then some v else lookupTbl k m := by
  induction m with
  | nil => simp [insertSorted, lookupTbl]
  | cons q rest ih =>
    obtain ⟨b, c⟩ := q
    simp only [insertSorted]
    by_cases h1 : a < b
    · simp only [if_pos h1, lookupTbl]
    · by_cases h2 : a = b
      · subst h2
        simp only [if_neg h1, if_pos rfl, lookupTbl]
        by_cases hk : k = a
        · simp [hk]
        · simp [hk]
      · simp only [if_neg h1, if_neg h2, lookupTbl]
        by_cases hk : k = b
        · have hka : ¬ k = a := fun h => h2 (h ▸ hk)
          have hba : ¬ b = a := fun h => h2 h.symm
          simp [hk, hka, hba]
        · simp [hk, ih]

theorem mem_insertSorted {a : Nat} {v : String} {m : Tbl} {p : Nat × String}
    (h : p ∈ insertSorted a v m) : p = (a, v) ∨ p ∈ m := by
  induction m with
  | nil => simpa [insertSorted] using h
  | cons q rest ih =>
    obtain ⟨b, c⟩ := q
    simp only [insertSorted] at h
    split_ifs at h with h1 h2
    · rcases List.mem_cons.mp h with h | h
      · exact Or.inl h
      · exact Or.inr h
    · rcases List.mem_cons.mp h with h | h
      · exact Or.inl h
      · exact Or.inr (List.mem_cons_of_mem _ h)
    · rcases List.mem_cons.mp h with h | h
      · exact Or.inr (h ▸ List.mem_cons_self _ _)
      · rcases ih h with h | h
        · exact Or.inl h
        · exact Or.inr (List.mem_cons_of_mem _ h)

theorem sortedTbl_insertSorted (a : Nat) (v : String) {m : Tbl}
    (h : SortedTbl m) : SortedTbl (insertSorted a v m) := by
  induction m with
  | nil => simp [insertSorted, SortedTbl]
  | cons q rest ih =>
    obtain ⟨b, c⟩ := q
    rw [SortedTbl, List.pairwise_cons] at h
    obtain ⟨hb, hrest⟩ := h
    simp only [insertSorted]
    split_ifs with h1 h2
    · rw [SortedTbl, List.pairwise_cons]
      refine ⟨?_, List.pairwise_cons.mpr ⟨hb, hrest⟩⟩
      intro p hp
      rcases List.mem_cons.mp hp with rfl | hp
      · exact h1
      · exact h1.trans (hb p hp)
    · subst h2
      rw [SortedTbl, List.pairwise_cons]
      exact ⟨hb, hrest⟩
    · have hlt : b < a := by omega
      rw [SortedTbl, List.pairwise_cons]
      constructor
      · intro p hp
        rcases mem_insertSorted hp with rfl | hp
        · exact hlt
        · exact hb p hp
      · exact ih hrest

theorem eraseKey_sublist (k : Nat) (m : Tbl) : List.Sublist (eraseKey k m) m := by
  induction m with
  | nil => simp [eraseKey]
  | cons q rest ih =>
    obtain ⟨b, c⟩ := q
    simp only [eraseKey]
    split_ifs with h
    · exact (List.Sublist.refl rest).cons _
    · exact ih.cons₂ _

theorem sortedTbl_eraseKey (k : Nat) {m : Tbl} (h : SortedTbl m) :
    SortedTbl (eraseKey k m) :=
  List.Pairwise.sublist (eraseKey_sublist k m) h

theorem lookupTbl_eq_none_iff (k : Nat) (m : Tbl) :
    lookupTbl k m = none ↔ ∀ p ∈ m, p.1 ≠ k := by
  induction m with
  | nil => simp [lookupTbl]
  | cons q rest ih =>
    obtain ⟨b, c⟩ := q
    by_cases hk : k = b
    · subst hk
      simp [lookupTbl]
    · have hbk : b ≠ k := fun h => hk h.symm
      simp [lookupTbl, hk, ih, hbk]

theorem lookupTbl_eraseKey_ne {k a : Nat} (h : k ≠ a) (m : Tbl) :
    lookupTbl k (eraseKey a m) = lookupTbl k m := by
  induction m with
  | nil => rfl
  | cons q rest ih =>
    obtain ⟨b, c⟩ := q
    simp only [eraseKey]
    split_ifs with hb
    · subst hb
      simp [lookupTbl, h]
    · simp [lookupTbl, ih]

theorem lookupTbl_eraseKey_self {m : Tbl} (h : SortedTbl m) (k : Nat) :
    lookupTbl k (eraseKey k m) = none := by
  induction m with
  | nil => rfl
  | cons q rest ih =>
    obtain ⟨b, c⟩ := q
    rw [SortedTbl, List.pairwise_cons] at h
    obtain ⟨hb, hrest⟩ := h
    simp only [eraseKey]
    split_ifs with hbk
    · refine (lookupTbl_eq_none_iff k rest).mpr fun p hp => ?_
      have := hb p hp
      omega
    · have hk : ¬ k = b := fun h2 => hbk h2.symm
      simp [lookupTbl, hk, ih hrest]

theorem lookupTbl_orInsert_of_some {k : Nat} {m : Tbl} {n : String}
    (h : lookupTbl k m = some n) (a : Nat) (v : String) :
    lookupTbl k (orInsert a v m) = some n := by
  unfold orInsert
  cases ha : lookupTbl a m with
  | some s => exact h
  | none =>
    rw [lookupTbl_insertSorted]
    by_cases hk : k = a
    · subst hk; rw [h] at ha; cases ha
    · simp [hk, h]

theorem lookupTbl_orInsert_of_none {k : Nat} {m : Tbl}
    (h : lookupTbl k m = none) (a : Nat) (v : String) :
    lookupTbl k (orInsert a v m) = if k = a then some v else none := by
  unfold orInsert
  cases ha : lookupTbl a m with
  | some s =>
    by_cases hk : k = a
    · subst hk; rw [h] at ha; cases ha
    · simp [hk, h]
  | none =>
    rw [lookupTbl_insertSorted]
    by_cases hk : k = a <;> simp [hk, h]

theorem sortedTbl_orInsert (a : Nat) (v : String) {m : Tbl}
    (h : SortedTbl m) : SortedTbl (orInsert a v m) := by
  unfold orInsert
  cases lookupTbl a m with
  | some s => exact h
  | none => exact sortedTbl_insertSorted a v h

theorem lookupTbl_mergeExt_of_some {k : Nat} {n : String} :
    ∀ (ext : Tbl) {reasons : Tbl}, lookupTbl k reasons = some n →
      lookupTbl k (mergeExt ext reasons) = some n := by
  intro ext
  induction ext with
  | nil => intro reasons h; exact h
  | cons p rest ih =>
    intro reasons h
    exact ih (lookupTbl_orInsert_of_some h p.1 p.2)

theorem lookupTbl_mergeExt_of_none {k : Nat} :
    ∀ (ext : Tbl) {reasons : Tbl}, lookupTbl k reasons = none →
      lookupTbl k (mergeExt ext reasons) = lookupTbl k ext := by
  intro ext
  induction ext with
  | nil =>
    intro reasons h
    simpa [mergeExt, lookupTbl] using h
  | cons p rest ih =>
    intro reasons h
    obtain ⟨a, v⟩ := p
    by_cases hk : k = a
    · subst hk
      have h1 : lookupTbl k (orInsert k v reasons) = some v := by
        rw [lookupTbl_orInsert_of_none h]; simp
      show lookupTbl k (mergeExt rest (orInsert k v reasons)) = _
      rw [lookupTbl_mergeExt_of_some rest h1]
      simp [lookupTbl]
    · have h1 : lookupTbl k (orInsert a v reasons) = none := by
        rw [lookupTbl_orInsert_of_none h, if_neg hk]
      show lookupTbl k (mergeExt rest (orInsert a v reasons)) = _
      rw [ih h1]
      simp [lookupTbl, hk]

theorem sortedTbl_mergeExt :
    ∀ (ext : Tbl) {reasons : Tbl}, SortedTbl reasons →
      SortedTbl (mergeExt ext reasons) := by
  intro ext
  induction ext with
  | nil => intro _ h; exact h
  | cons p rest ih => intro reasons h; exact ih (sortedTbl_orInsert p.1 p.2 h)

theorem lookupTbl_mergeNonCore_of_some (btf : BtfCollection) {k : Nat}
    {n : String} :
    ∀ (names : List String) {reasons res : Tbl},
      mergeNonCore btf names reasons = .ok res →
      lookupTbl k reasons = some n → lookupTbl k res = some n := by
  intro names
  induction names with
  | nil =>
    intro reasons res hm hl
    simp only [mergeNonCore] at hm
    injection hm with h
    subst h
    exact hl
  | cons nm rest ih =>
    intro reasons res hm hl
    simp only [mergeNonCore] at hm
    cases hp : parse_enum btf nm with
    | error e => rw [hp] at hm; exact absurd hm (by simp)
    | ok o =>
      rw [hp] at hm
      cases o with
      | none => exact ih hm hl
      | some t => exact ih hm (lookupTbl_mergeExt_of_some t hl)

theorem lookupTbl_mergeNonCore_of_none (btf : BtfCollection) {k : Nat} :
    ∀ (names : List String) {reasons res : Tbl},
      mergeNonCore btf names reasons = .ok res →
      lookupTbl k reasons = none →
      lookupTbl k res = firstExtDef btf k names := by
  intro names
  induction names with
  | nil =>
    intro reasons res hm hl
    simp only [mergeNonCore] at hm
    injection hm with h
    subst h
    simpa [firstExtDef] using hl
  | cons nm rest ih =>
    intro reasons res hm hl
    simp only [mergeNonCore] at hm
    cases hp : parse_enum btf nm with
    | error e => rw [hp] at hm; exact absurd hm (by simp)
    | ok o =>
      rw [hp] at hm
      cases o with
      | none =>
        simp only [firstExtDef, hp]
        exact ih hm hl
      | some t =>
        simp only [firstExtDef, hp]
        cases hlt : lookupTbl k t with
        | some s =>
          have h1 : lookupTbl k (mergeExt t reasons) = some s := by
            rw [lookupTbl_mergeExt_of_none t hl, hlt]
          rw [lookupTbl_mergeNonCore_of_some btf rest hm h1]
        | none =>
          have h1 : lookupTbl k (mergeExt t reasons) = none := by
            rw [lookupTbl_mergeExt_of_none t hl, hlt]
          exact ih hm h1

theorem sortedTbl_mergeNonCore (btf : BtfCollection) :
    ∀ (names : List String) {reasons res : Tbl},
      mergeNonCore btf names reasons = .ok res →
      SortedTbl reasons → SortedTbl res := by
  intro names
  induction names with
  | nil =>
    intro reasons res hm hs
    simp only [mergeNonCore] at hm
    injection hm with h
    subst h
    exact hs
  | cons nm rest ih =>
    intro reasons res hm hs
    simp only [mergeNonCore] at hm
    cases hp : parse_enum btf nm with
    | error e => rw [hp] at hm; exact absurd hm (by simp)
    | ok o =>
      rw [hp] at hm
      cases o with
      | none => exact ih hm hs
      | some t => exact ih hm (sortedTbl_mergeExt t hs)

theorem lookupTbl_insertMembers {k : Nat} :
    ∀ (ms : List EnumMember) {acc t : Tbl},
      insertMembers ms acc = .ok t →
      lookupTbl k t =
        match lastDef k ms with
        | some nm => some nm
        | none => lookupTbl k acc := by
  intro ms
  induction ms with
  | nil =>
    intro acc t h
    simp only [insertMembers] at h
    injection h with h
    subst h
    simp [lastDef]
  | cons m rest ih =>
    intro acc t h
    simp only [insertMembers] at h
    cases hn : m.name with
    | error e => rw [hn] at h; exact absurd h (by simp)
    | ok nm =>
      rw [hn] at h
      rw [ih h]
      cases hld : lastDef k rest with
      | some x => simp [lastDef, hld]
      | none =>
        simp only [lastDef, hld, hn, lookupTbl_insertSorted]
        by_cases hk : k = toU32 m.val <;> simp [hk]

theorem sortedTbl_insertMembers :
    ∀ (ms : List EnumMember) {acc t : Tbl},
      insertMembers ms acc = .ok t → SortedTbl acc → SortedTbl t := by
  intro ms
  induction ms with
  | nil =>
    intro acc t h hs
    simp only [insertMembers] at h
    injection h with h
    subst h
    exact hs
  | cons m rest ih =>
    intro acc t h hs
    simp only [insertMembers] at h
    cases hn : m.name with
    | error e => rw [hn] at h; exact absurd h (by simp)
    | ok nm =>
      rw [hn] at h
      exact ih h (sortedTbl_insertSorted _ _ hs)

theorem insertMembers_ok :
    ∀ (ms : List EnumMember), (∀ m ∈ ms, nameOk m = true) →
      ∀ acc : Tbl, ∃ t, insertMembers ms acc = .ok t := by
  intro ms
  induction ms with
  | nil => intro _ acc; exact ⟨acc, rfl⟩
  | cons m rest ih =>
    intro h acc
    have hm : nameOk m = true := h m (List.mem_cons_self _ _)
    cases hn : m.name with
    | error e => simp [nameOk, hn] at hm
    | ok nm =>
      obtain ⟨t, ht⟩ :=
        ih (fun x hx => h x (List.mem_cons_of_mem _ hx))
          (insertSorted (toU32 m.val) nm acc)
      exact ⟨t, by simp only [insertMembers, hn]; exact ht⟩

theorem parse_enum_ok_inv {btf : BtfCollection} {name : String} {t : Tbl}
    (h : parse_enum btf name = .ok (some t)) :
    ∃ types ms, btf.resolveTypesByName name = .ok types ∧
      types.find? isEnum = some (Ty.enumTy ms) ∧
      insertMembers ms [] = .ok t := by
  unfold parse_enum at h
  cases hr : btf.resolveTypesByName name with
  | error e =>
    rw [hr] at h
    replace h : (Except.ok none : Except String (Option Tbl)) =
      .ok (some t) := h
    exact absurd h (by simp)
  | ok types =>
    rw [hr] at h
    replace h : (match types.find? isEnum with
      | some (Ty.enumTy members) =>
        match insertMembers members [] with
        | Except.error e => Except.error e
        | Except.ok t => Except.ok (some t)
      | _ => (Except.ok none : Except String (Option Tbl))) = .ok (some t) := h
    cases hf : types.find? isEnum with
    | none =>
      rw [hf] at h
      replace h : (Except.ok none : Except String (Option Tbl)) =
        .ok (some t) := h
      exact absurd h (by simp)
    | some ty =>
      rw [hf] at h
      cases ty with
      | other =>
        replace h : (Except.ok none : Except String (Option Tbl)) =
          .ok (some t) := h
        exact absurd h (by simp)
      | enumTy ms =>
        replace h : (match insertMembers ms [] with
          | Except.error e => Except.error e
          | Except.ok t => (Except.ok (some t) : Except String (Option Tbl))) =
            .ok (some t) := h
        cases hi : insertMembers ms [] with
        | error e =>
          rw [hi] at h
          replace h : (Except.error e : Except String (Option Tbl)) =
            .ok (some t) := h
          exact absurd h (by simp)
        | ok t2 =>
          rw [hi] at h
          replace h : (Except.ok (some t2) : Except String (Option Tbl)) =
            .ok (some t) := h
          injection h with h
          injection h with h
          subst h
          exact ⟨types, ms, rfl, hf, hi⟩

theorem parse_enum_sorted {btf : BtfCollection} {name : String} {t : Tbl}
    (h : parse_enum btf name = .ok (some t)) : SortedTbl t := by
  obtain ⟨types, ms, _, _, hi⟩ := parse_enum_ok_inv h
  exact sortedTbl_insertMembers ms hi List.Pairwise.nil

theorem buildReasons_inv {btf : BtfCollection} {reasons : Tbl}
    {subsys : Option Tbl} (h : buildReasons btf = .ok (reasons, subsys)) :
    ∃ core, parse_enum btf "skb_drop_reason" = .ok (some core) ∧
      mergeNonCore btf NON_CORE_DROP_REASONS (eraseKey 0xffff0000 core) =
        .ok reasons ∧
      parse_enum btf "skb_drop_reason_subsys" = .ok subsys := by
  unfold buildReasons at h
  cases hc : parse_enum btf "skb_drop_reason" with
  | error e =>
    rw [hc] at h
    replace h : (Except.error e : Except String (Tbl × Option Tbl)) =
      .ok (reasons, subsys) := h
    exact absurd h (by simp)
  | ok o =>
    rw [hc] at h
    cases o with
    | none =>
      replace h : (Except.error "Drop reasons are not supported by this kernel" :
          Except String (Tbl × Option Tbl)) = .ok (reasons, subsys) := h
      exact absurd h (by simp)
    | some core =>
      replace h : (match mergeNonCore btf NON_CORE_DROP_REASONS
          (eraseKey 0xffff0000 core) with
        | Except.error e => Except.error e
        | Except.ok r =>
          match parse_enum btf "skb_drop_reason_subsys" with
          | Except.error e => Except.error e
          | Except.ok s => (Except.ok (r, s) : Except String (Tbl × Option Tbl))) =
            .ok (reasons, subsys) := h
      cases hm : mergeNonCore btf NON_CORE_DROP_REASONS
          (eraseKey 0xffff0000 core) with
      | error e =>
        rw [hm] at h
        replace h : (Except.error e : Except String (Tbl × Option Tbl)) =
          .ok (reasons, subsys) := h
        exact absurd h (by simp)
      | ok res =>
        rw [hm] at h
        replace h : (match parse_enum btf "skb_drop_reason_subsys" with
          | Except.error e => Except.error e
          | Except.ok s => (Except.ok (res, s) : Except String (Tbl × Option Tbl))) =
            .ok (reasons, subsys) := h
        cases hs : parse_enum btf "skb_drop_reason_subsys" with
        | error e =>
          rw [hs] at h
          replace h : (Except.error e : Except String (Tbl × Option Tbl)) =
            .ok (reasons, subsys) := h
          exact absurd h (by simp)
        | ok sub =>
          rw [hs] at h
          replace h : (Except.ok (res, sub) : Except String (Tbl × Option Tbl)) =
            .ok (reasons, subsys) := h
          injection h with h
          injection h with h1 h2
          subst h1
          subst h2
          exact ⟨core, rfl, hm, rfl⟩

theorem buildReasons_sorted {btf : BtfCollection} {reasons : Tbl}
    {subsys : Option Tbl} (h : buildReasons btf = .ok (reasons, subsys)) :
    SortedTbl reasons := by
  obtain ⟨core, hc, hm, _⟩ := buildReasons_inv h
  exact sortedTbl_mergeNonCore btf _ hm
    (sortedTbl_eraseKey _ (parse_enum_sorted hc))

theorem foldl_append_line (line : Nat × String → String) :
    ∀ (t : Tbl) (init : String),
      t.foldl (fun out p => out ++ line p) init =
        init ++ t.foldl (fun out p => out ++ line p) "" := by
  intro t
  induction t with
  | nil => intro init; exact (String.append_empty init).symm
  | cons p rest ih =>
    intro init
    simp only [List.foldl]
    rw [ih (init ++ line p), ih ("" ++ line p), String.empty_append,
      String.append_assoc]

theorem exists_split_of_mem_defs (line : Nat × String → String) :
    ∀ (t : Tbl) (p : Nat × String), p ∈ t →
      ∃ x y, t.foldl (fun out q => out ++ line q) "" = x ++ line p ++ y := by
  intro t
  induction t with
  | nil => intro p hp; cases hp
  | cons q rest ih =>
    intro p hp
    rcases List.mem_cons.mp hp with rfl | hp
    · refine ⟨"", rest.foldl (fun out r => out ++ line r) "", ?_⟩
      simp only [List.foldl]
      rw [foldl_append_line line rest ("" ++ line p), String.empty_append]
    · obtain ⟨x, y, hxy⟩ := ih p hp
      refine ⟨line q ++ x, y, ?_⟩
      simp only [List.foldl]
      rw [foldl_append_line line rest ("" ++ line q), String.empty_append,
        hxy, String.append_assoc (line q) x (line p),
        String.append_assoc (line q) (x ++ line p) y]

/-- Claim C1: for every code defined by the core drop-reason enumeration
(other than the removed sentinel), the merged table maps it to the core's
name for it, even when extensions also define the same code: the merge loop
only uses or_insert, which never overwrites an existing binding. -/
theorem C1_core_precedence {btf : BtfCollection} {core reasons : Tbl}
    {subsys : Option Tbl} {c : Nat} {n : String}
    (hb : buildReasons btf = .ok (reasons, subsys))
    (hcore : parse_enum btf "skb_drop_reason" = .ok (some core))
    (hc : c ≠ 0xffff0000) (hn : lookupTbl c core = some n) :
    lookupTbl c reasons = some n := by
  obtain ⟨core2, hc2, hm, _⟩ := buildReasons_inv hb
  rw [hcore] at hc2
  injection hc2 with h
  injection h with h
  subst h
  have h1 : lookupTbl c (eraseKey 0xffff0000 core) = some n := by
    rw [lookupTbl_eraseKey_ne hc, hn]
  exact lookupTbl_mergeNonCore_of_some btf _ hm h1

/-- Witness for C1 on btfMain: code 2 is defined by the core as TCP_CSUM and
by the mac80211 extension as MAC_FILTER; the merged table keeps TCP_CSUM. -/
theorem C1_witness : lookupTbl 2 tblMain = some "TCP_CSUM" :=
  @C1_core_precedence btfMain coreMain tblMain (some subMain) 2 "TCP_CSUM"
    rfl rfl (by decide) rfl

/-- Claim C2 counterexample: the claim says the sentinel code 0xFFFF0000 is
never a key of the final table regardless of whether any extension defines
it, but the sentinel is removed only from the core table before the merge,
so an extension defining it re-introduces it: with btfC2 (core defines the
sentinel, the mac80211 extension defines it as EXT_MASK) the final table
contains the sentinel. -/
theorem C2_counterexample :
    buildReasons btfC2 =
      .ok ([(0, "NOT_SPECIFIED"), (4294901760, "EXT_MASK")], none) ∧
    lookupTbl 0xffff0000 [(0, "NOT_SPECIFIED"), (4294901760, "EXT_MASK")] =
      some "EXT_MASK" :=
  ⟨rfl, rfl⟩

/-- Claim C2 amended: the sentinel mask code 0xFFFF0000 is never a key of
the final merged table regardless of whether the core enumeration defines
it, provided no extension enumeration defines it; the core's sentinel entry
is always removed right after core extraction. -/
theorem C2_sentinel_amended {btf : BtfCollection} {reasons : Tbl}
    {subsys : Option Tbl}
    (hb : buildReasons btf = .ok (reasons, subsys))
    (hext : firstExtDef btf 0xffff0000 NON_CORE_DROP_REASONS = none) :
    lookupTbl 0xffff0000 reasons = none := by
  obtain ⟨core, hc, hm, _⟩ := buildReasons_inv hb
  have h0 : lookupTbl 0xffff0000 (eraseKey 0xffff0000 core) = none :=
    lookupTbl_eraseKey_self (parse_enum_sorted hc) _
  rw [lookupTbl_mergeNonCore_of_none btf _ hm h0, hext]

/-- Witness for the amended C2 on btfMain: the core defines the sentinel,
no extension does, and the merged table does not contain it. -/
theorem C2_witness : lookupTbl 0xffff0000 tblMain = none :=
  @C2_sentinel_amended btfMain tblMain (some subMain) rfl rfl

/-- Claim C3: a code absent from the core enumeration but defined by at
least one extension is mapped to the name given by the earliest extension
(in the fixed NON_CORE_DROP_REASONS order) that defines it; `firstExtDef`
expresses "the earliest extension that defines the code". -/
theorem C3_extension_first_writer {btf : BtfCollection} {core reasons : Tbl}
    {subsys : Option Tbl} {c : Nat} {nm : String}
    (hb : buildReasons btf = .ok (reasons, subsys))
    (hcore : parse_enum btf "skb_drop_reason" = .ok (some core))
    (habs : lookupTbl c core = none)
    (hfirst : firstExtDef btf c NON_CORE_DROP_REASONS = some nm) :
    lookupTbl c reasons = some nm := by
  obtain ⟨core2, hc2, hm, _⟩ := buildReasons_inv hb
  rw [hcore] at hc2
  injection hc2 with h
  injection h with h
  subst h
  have h0 : lookupTbl c (eraseKey 0xffff0000 core) = none := by
    by_cases hcs : c = 0xffff0000
    · subst hcs
      exact lookupTbl_eraseKey_self (parse_enum_sorted hcore) _
    · rw [lookupTbl_eraseKey_ne hcs, habs]
  rw [lookupTbl_mergeNonCore_of_none btf _ hm h0, hfirst]

/-- Witness for C3 on btfMain: code 3 is absent from core and defined by
both extensions (mac80211: RADIO_DROP, listed first; ovs: OVS_LATER); the
merged table carries the earlier-listed extension's name. -/
theorem C3_witness : lookupTbl 3 tblMain = some "RADIO_DROP" :=
  @C3_extension_first_writer btfMain coreMain tblMain (some subMain) 3
    "RADIO_DROP" rfl rfl rfl rfl

/-- Claim C4: when core extraction succeeds but finds no enumeration of the
name, the build fails with the Unsupported message and no table is produced;
when extraction itself errors, that error propagates fatally. -/
theorem C4_unsupported_and_error_propagation (btf : BtfCollection) :
    (parse_enum btf "skb_drop_reason" = .ok none →
      buildReasons btf =
        .error "Drop reasons are not supported by this kernel") ∧
    (∀ e, parse_enum btf "skb_drop_reason" = .error e →
      buildReasons btf = .error e) := by
  constructor
  · intro h
    unfold buildReasons
    rw [h]
  · intro e h
    unfold buildReasons
    rw [h]

/-- Witness for C4: btfNoCore resolves nothing, so the build fails with the
Unsupported message; btfErr's core enumeration has a member whose name
cannot be resolved, and that error propagates. -/
theorem C4_witness :
    buildReasons btfNoCore =
      .error "Drop reasons are not supported by this kernel" ∧
    buildReasons btfErr = .error "bad string offset" :=
  ⟨(C4_unsupported_and_error_propagation btfNoCore).1 rfl,
    (C4_unsupported_and_error_propagation btfErr).2 "bad string offset" rfl⟩

/-- Claim C5: format_reason on an unknown code returns base string
"Unknown reason {code}" and always attempts subsystem annotation (verbose
forced true) whatever the caller passed; on a known code it returns the
stored name and attempts annotation only when verbose is true. Annotation
appends " (sub-system: {name})" exactly when a subsystem table exists and
contains code >> 16, and otherwise leaves the base string unchanged. -/
theorem C5_render_one_rule (val : Nat) (reasons : Tbl)
    (subsys : Option Tbl) (verbose : Bool) :
    (lookupTbl val reasons = none →
      format_reason val reasons subsys verbose =
        annotateSub subsys val ("Unknown reason " ++ toString val) true) ∧
    (∀ nm, lookupTbl val reasons = some nm →
      format_reason val reasons subsys verbose =
        annotateSub subsys val nm verbose) ∧
    (∀ s, annotateSub subsys val s false = s) ∧
    (∀ s sub nm, subsys = some sub →
      lookupTbl (val >>> 16) sub = some nm →
      annotateSub subsys val s true = s ++ " (sub-system: " ++ nm ++ ")") ∧
    (∀ s sub, subsys = some sub → lookupTbl (val >>> 16) sub = none →
      annotateSub subsys val s true = s) ∧
    (∀ s b, subsys = none → annotateSub subsys val s b = s) := by
  refine ⟨?_, ?_, ?_, ?_, ?_, ?_⟩
  · intro h
    simp only [format_reason, h]
  · intro nm h
    simp only [format_reason, h]
  · intro s
    simp [annotateSub]
  · intro s sub nm hs hl
    subst hs
    simp [annotateSub, hl]
  · intro s sub hs hl
    subst hs
    simp [annotateSub, hl]
  · intro s b hs
    subst hs
    simp [annotateSub]

/-- Witness for C5, matching the spec's two scenarios: the unknown code
0x00020005 with subsystem table {2: wifi} and verbose=false is annotated
anyway; the known code 2 (TCP_CSUM) with verbose=false is not annotated. -/
theorem C5_witness :
    format_reason 131077 [] (some [(2, "wifi")]) false =
      "Unknown reason 131077 (sub-system: wifi)" ∧
    format_reason 2 [(2, "TCP_CSUM")] (some [(2, "wifi")]) false =
      "TCP_CSUM" := by
  constructor
  · have h := C5_render_one_rule 131077 [] (some [(2, "wifi")]) false
    rw [h.1 rfl,
      h.2.2.2.1 ("Unknown reason " ++ toString 131077) [(2, "wifi")] "wifi"
        rfl (by decide)]
    decide
  · have h := C5_render_one_rule 2 [(2, "TCP_CSUM")]
      (some [(2, "wifi")]) false
    rw [h.2.1 "TCP_CSUM" rfl, h.2.2.1 "TCP_CSUM"]

/-- Claim C6: an enumeration member's 32-bit table key is its declared
(sign-extended) value reinterpreted as unsigned 32-bit: parse_enum keys a
single-member enumeration at toU32 of the declared value, and toU32 is
reduction modulo 2^32 into [0, 2^32), so a negative declared value yields
its two's-complement u32 key. -/
theorem C6_key_is_u32_reinterpretation (btf : BtfCollection) (name : String)
    (v : Int) (nm : String)
    (hr : btf.resolveTypesByName name = .ok [Ty.enumTy [⟨v, .ok nm⟩]]) :
    parse_enum btf name = .ok (some [(toU32 v, nm)]) ∧
    (toU32 v : Int) % 4294967296 = v % 4294967296 ∧
    toU32 v < 4294967296 := by
  refine ⟨?_, ?_, ?_⟩
  · unfold parse_enum
    rw [hr]
    rfl
  · have h0 : (0 : Int) ≤ v % 4294967296 := Int.emod_nonneg v (by norm_num)
    rw [toU32, Int.toNat_of_nonneg h0]
    exact Int.emod_emod_of_dvd v dvd_rfl
  · have h1 : v % 4294967296 < 4294967296 := Int.emod_lt_of_pos v (by norm_num)
    have h0 : (0 : Int) ≤ v % 4294967296 := Int.emod_nonneg v (by norm_num)
    rw [toU32]
    omega

/-- Witness for C6 on btfNeg: the member declared with value -2 is keyed at
4294967294 = 2^32 - 2, its two's-complement reinterpretation. -/
theorem C6_witness :
    parse_enum btfNeg "neg_enum" = .ok (some [(4294967294, "NEG")]) ∧
    ((4294967294 : Nat) : Int) % 4294967296 = (-2 : Int) % 4294967296 ∧
    (4294967294 : Nat) < 4294967296 := by
  have h := C6_key_is_u32_reinterpretation btfNeg "neg_enum" (-2) "NEG" rfl
  have ht : toU32 (-2) = 4294967294 := rfl
  rw [ht] at h
  exact h

/-- Claim C7 counterexample: the claim says each raw line zero-pads the code
to the width of the maximum code, but the code pads with spaces (Rust's
width specifier without the 0 flag): at table {5: A, 10: B} the first line
is " 5 = A", not "05 = A". -/
theorem C7_counterexample :
    render_raw [(5, "A"), (10, "B")] none false = [" 5 = A", "10 = B"] ∧
    render_raw_zeroPad [(5, "A"), (10, "B")] none false =
      ["05 = A", "10 = B"] ∧
    render_raw [(5, "A"), (10, "B")] none false ≠
      render_raw_zeroPad [(5, "A"), (10, "B")] none false := by
  have hlog : Nat.log 10 (maxKey [(5, "A"), (10, "B")]) = 1 :=
    Nat.log_eq_of_pow_le_of_lt_pow (by decide) (by decide)
  have hw : rawWidth [(5, "A"), (10, "B")] = 2 := by rw [rawWidth, hlog]
  have ha : render_raw [(5, "A"), (10, "B")] none false =
      [" 5 = A", "10 = B"] := by
    simp only [render_raw, hw]
    decide
  have hb : render_raw_zeroPad [(5, "A"), (10, "B")] none false =
      ["05 = A", "10 = B"] := by
    simp only [render_raw_zeroPad, hw]
    decide
  refine ⟨ha, hb, ?_⟩
  rw [ha, hb]
  decide

/-- Claim C7 amended: the raw listing emits exactly one line per table
entry, codes strictly ascending and each appearing once; each line is the
code right-aligned with SPACES (not zeros) to a width of the decimal digit
count of the maximum code (minimum 1), then " = ", then the name rendered
with the caller's verbose flag. -/
theorem C7_raw_listing_amended {btf : BtfCollection} {reasons : Tbl}
    {subsys : Option Tbl} (verbose : Bool)
    (hb : buildReasons btf = .ok (reasons, subsys)) :
    (render_raw reasons subsys verbose).length = reasons.length ∧
    List.Pairwise (fun a b : Nat => a < b) (reasons.map Prod.fst) ∧
    render_raw reasons subsys verbose = reasons.map (fun p =>
      String.mk (List.replicate (rawWidth reasons - (toString p.1).length) ' ') ++
        toString p.1 ++ " = " ++
        format_reason p.1 reasons subsys verbose) ∧
    rawWidth reasons =
      if maxKey reasons = 0 then 1
      else (Nat.digits 10 (maxKey reasons)).length := by
  refine ⟨?_, ?_, ?_, ?_⟩
  · simp [render_raw]
  · exact List.pairwise_map.mpr (buildReasons_sorted hb)
  · rfl
  · by_cases h : maxKey reasons = 0
    · simp [rawWidth, h]
    · rw [Nat.digits_len 10 _ (by norm_num) h, if_neg h, rawWidth]

/-- Witness for the amended C7 on btfMain with verbose=false. -/
theorem C7_witness :
    (render_raw tblMain (some subMain) false).length = tblMain.length ∧
    List.Pairwise (fun a b : Nat => a < b) (tblMain.map Prod.fst) ∧
    render_raw tblMain (some subMain) false = tblMain.map (fun p =>
      String.mk (List.replicate (rawWidth tblMain - (toString p.1).length) ' ') ++
        toString p.1 ++ " = " ++
        format_reason p.1 tblMain (some subMain) false) ∧
    rawWidth tblMain =
      if maxKey tblMain = 0 then 1
      else (Nat.digits 10 (maxKey tblMain)).length :=
  @C7_raw_listing_amended btfMain tblMain (some subMain) false rfl

/-- Claim C8 counterexample: the claim says the extracted mapping iterates
in declaration order, but the code stores members in a BTreeMap, which
iterates in ascending key order: btfC8 declares members in order
(10, B), (5, A), yet parse_enum returns [(5, A), (10, B)]. -/
theorem C8_counterexample :
    parse_enum btfC8 "myenum" = .ok (some [(5, "A"), (10, "B")]) ∧
    declOrderTable [⟨10, .ok "B"⟩, ⟨5, .ok "A"⟩] = [(10, "B"), (5, "A")] ∧
    ([(5, "A"), (10, "B")] : Tbl) ≠ [(10, "B"), (5, "A")] :=
  ⟨rfl, rfl, by decide⟩

/-- Claim C8 amended: for every successfully extracted enumeration, the
returned mapping iterates in strictly ascending key order (the BTreeMap
iteration order), not declaration order. -/
theorem C8_iteration_order_amended {btf : BtfCollection} {name : String}
    {t : Tbl} (h : parse_enum btf name = .ok (some t)) :
    List.Pairwise (fun a b : Nat => a < b) (t.map Prod.fst) :=
  List.pairwise_map.mpr (parse_enum_sorted h)

/-- Witness for the amended C8 on btfC8. -/
theorem C8_witness :
    List.Pairwise (fun a b : Nat => a < b)
      (([(5, "A"), (10, "B")] : Tbl).map Prod.fst) :=
  @C8_iteration_order_amended btfC8 "myenum" [(5, "A"), (10, "B")] rfl

/-- Claim C9: whenever the table contains the entry (5, DUP_FRAG), both
script generators emit a declaration line binding 5 to the quoted literal
DUP_FRAG somewhere in their output. -/
theorem C9_script_declaration_lines {t : Tbl} (h : (5, "DUP_FRAG") ∈ t) :
    (∃ x y, format_bpftrace t =
      x ++ "    @drop_reasons[5] = \"DUP_FRAG\";\n" ++ y) ∧
    (∃ x y, format_stap t =
      x ++ "    drop_reasons[5] = \"DUP_FRAG\";\n" ++ y) := by
  constructor
  · obtain ⟨x, y, hxy⟩ := exists_split_of_mem_defs bpfLine t _ h
    have hline : bpfLine (5, "DUP_FRAG") =
        "    @drop_reasons[5] = \"DUP_FRAG\";\n" := by decide
    rw [hline] at hxy
    refine ⟨bpfHeader ++ x, y ++ bpfFooter, ?_⟩
    show bpfHeader ++ bpfDefs t ++ bpfFooter = _
    rw [bpfDefs, hxy]
    simp only [String.append_assoc]
  · obtain ⟨x, y, hxy⟩ := exists_split_of_mem_defs stapLine t _ h
    have hline : stapLine (5, "DUP_FRAG") =
        "    drop_reasons[5] = \"DUP_FRAG\";\n" := by decide
    rw [hline] at hxy
    refine ⟨stapHeader ++ x, y ++ stapFooter, ?_⟩
    show stapHeader ++ stapDefs t ++ stapFooter = _
    rw [stapDefs, hxy]
    simp only [String.append_assoc]

/-- Witness for C9 at the one-entry table of the spec's round-trip
scenario. -/
theorem C9_witness :
    (∃ x y, format_bpftrace [(5, "DUP_FRAG")] =
      x ++ "    @drop_reasons[5] = \"DUP_FRAG\";\n" ++ y) ∧
    (∃ x y, format_stap [(5, "DUP_FRAG")] =
      x ++ "    drop_reasons[5] = \"DUP_FRAG\";\n" ++ y) :=
  @C9_script_declaration_lines [(5, "DUP_FRAG")] (by decide)

/-- Claim C10 (implicit): when one enumeration declares several members
whose values reinterpret to the same u32 key, parse_enum does not fail, the
key appears once (keys are strictly ascending, hence unique), and it maps to
the name of the last such member in declaration order: BTreeMap::insert
overwrites, so later duplicates win; `lastDef` expresses "the last member in
declaration order whose value reinterprets to the key". -/
theorem C10_duplicate_keys_last_wins {btf : BtfCollection} {name : String}
    {ms : List EnumMember}
    (hr : btf.resolveTypesByName name = .ok [Ty.enumTy ms])
    (hok : ∀ m ∈ ms, nameOk m = true) :
    ∃ t, parse_enum btf name = .ok (some t) ∧
      List.Pairwise (fun p q : Nat × String => p.1 < q.1) t ∧
      ∀ k, lookupTbl k t = lastDef k ms := by
  obtain ⟨t, ht⟩ := insertMembers_ok ms hok []
  refine ⟨t, ?_, ?_, ?_⟩
  · have hstep : parse_enum btf name =
        match insertMembers ms [] with
        | Except.error e => Except.error e
        | Except.ok t => Except.ok (some t) := by
      unfold parse_enum
      rw [hr]
      rfl
    rw [hstep, ht]
  · exact sortedTbl_insertMembers ms ht List.Pairwise.nil
  · intro k
    rw [lookupTbl_insertMembers ms ht]
    cases hld : lastDef k ms with
    | some nm => rfl
    | none => rfl

/-- Witness for C10 on btfDup, whose enumeration declares value 1 twice
(FIRST then SECOND): extraction succeeds and the table binds 1 to SECOND. -/
theorem C10_witness :
    (∃ t, parse_enum btfDup "dup_enum" = .ok (some t) ∧
      List.Pairwise (fun p q : Nat × String => p.1 < q.1) t ∧
      ∀ k, lookupTbl k t =
        lastDef k [⟨1, .ok "FIRST"⟩, ⟨1, .ok "SECOND"⟩]) ∧
    parse_enum btfDup "dup_enum" = .ok (some [(1, "SECOND")]) :=
  ⟨@C10_duplicate_keys_last_wins btfDup "dup_enum"
    [⟨1, .ok "FIRST"⟩, ⟨1, .ok "SECOND"⟩] rfl (by decide), rfl⟩
